import Mathlib

/-!
Verification development for the Nextjs-React-Tailwind-Assistant MCP server.

The embedding models the TypeScript sources:
- `src/utils/security.ts` : `sanitizeAndValidatePath`, `isPathWithinBase`,
  `validateToolInput` and its per-tool validators;
- `src/index.ts` : the tool handlers (`get_catalyst_component`, `get_pattern`,
  `get_library_docs`), the recommendation scorer `calculateRecommendations`,
  and the document search `searchInContent`.

Strings are modelled through their `List Char` data; Node's POSIX `path`
functions (`normalize`, `resolve`, `join`) are embedded over segment lists.
JavaScript numbers in the scorer are modelled as exact rationals: the only
non-integer value is the feature ratio `15 * matched / total`, kept as the
explicit pair (numerator, denominator) so that every function is executable;
bridge lemmas relate the integer forms to the real (`ℚ`) arithmetic.
-/

/-- Boolean test that `pat` occurs as a leading run of `cs` (`String.startsWith`
on character data, also the building block of JavaScript `String.includes`). -/
def leadsWith : List Char → List Char → Bool
  | [], _ => true
  | _ :: _, [] => false
  | p :: ps, c :: cs => p == c && leadsWith ps cs

/-- Boolean test that `pat` occurs contiguously anywhere inside `cs`
(JavaScript `String.prototype.includes`). -/
def containsSeq (pat : List Char) : List Char → Bool
  | [] => leadsWith pat []
  | c :: cs => leadsWith pat (c :: cs) || containsSeq pat cs

/-- Substring test on strings (JavaScript `s.includes(pat)`). -/
def strIncludes (s pat : String) : Bool :=
  containsSeq pat.data s.data

/-- Split a character list at every occurrence of the character `c`
(JavaScript `String.prototype.split` with a one-character separator). -/
def splitOnChar (c : Char) : List Char → List (List Char)
  | [] => [[]]
  | x :: xs =>
    match splitOnChar c xs with
    | [] => [[]]
    | s :: ss => if x = c then [] :: s :: ss else (x :: s) :: ss

/-- Join path segments with the POSIX separator `'/'`. -/
def joinSegs : List (List Char) → List Char
  | [] => []
  | [s] => s
  | s :: rest => s ++ '/' :: joinSegs rest

/-- Stack-based processing of the segments of an absolute POSIX path:
`"."` is dropped, `".."` pops the previous segment (and is dropped at the
root), anything else is kept.  This is Node's `normalizeString` with
`allowAboveRoot = false`. -/
def collapseAbs (stack : List (List Char)) : List (List Char) → List (List Char)
  | [] => stack
  | s :: rest =>
    if s = ['.'] then collapseAbs stack rest
    else if s = ['.', '.'] then collapseAbs stack.dropLast rest
    else collapseAbs (stack ++ [s]) rest

/-- Stack-based processing of the segments of a relative POSIX path: like
`collapseAbs` except that `".."` entries that cannot pop anything are kept.
This is Node's `normalizeString` with `allowAboveRoot = true`. -/
def collapseRel (stack : List (List Char)) : List (List Char) → List (List Char)
  | [] => stack
  | s :: rest =>
    if s = ['.'] then collapseRel stack rest
    else if s = ['.', '.'] then
      if stack ≠ [] ∧ stack.getLast? ≠ some ['.', '.'] then
        collapseRel stack.dropLast rest
      else collapseRel (stack ++ [s]) rest
    else collapseRel (stack ++ [s]) rest

/-- First character is the POSIX separator. -/
def headIsSlash : List Char → Bool
  | '/' :: _ => true
  | _ => false

/-- Last character is the POSIX separator. -/
def lastIsSlash (cs : List Char) : Bool :=
  match cs.getLast? with
  | some '/' => true
  | _ => false

/-- Node `path.normalize` (POSIX): collapse duplicate separators, resolve
`"."` and `".."` segments, preserve a trailing separator, return `"."` for
an empty result. -/
def pathNormalize (p : String) : String :=
  if p.data = [] then "."
  else
    let isAbs := headIsSlash p.data
    let trailing := lastIsSlash p.data
    let segs := (splitOnChar '/' p.data).filter (· ≠ [])
    let stack := if isAbs then collapseAbs [] segs else collapseRel [] segs
    let body := joinSegs stack
    if body = [] then
      if isAbs then "/" else if trailing then "./" else "."
    else
      String.mk ((if isAbs then ['/'] else []) ++ body ++ (if trailing then ['/'] else []))

/-- Node `path.resolve` (POSIX) of a single path against the process working
directory `cwd`: prepend `cwd` unless the path is already absolute, then
normalize absolutely; the result is absolute and has no trailing separator. -/
def pathResolve (cwd p : String) : String :=
  let joined := if headIsSlash p.data then p.data else cwd.data ++ '/' :: p.data
  String.mk ('/' :: joinSegs (collapseAbs [] ((splitOnChar '/' joined).filter (· ≠ []))))

/-- Node `path.join` (POSIX) of two non-empty parts: concatenate with a
separator and normalize. -/
def pathJoin (a b : String) : String :=
  pathNormalize (String.mk (a.data ++ '/' :: b.data))

/-- Node `path.join` (POSIX) of a list of non-empty parts, used for the
`CONFIG` base paths built from `process.cwd()`. -/
def pathJoinMany (parts : List String) : String :=
  pathNormalize (String.mk (joinSegs (parts.map (·.data))))

/-!  Model of `src/utils/security.ts`. -/

/-- Result record of `sanitizeAndValidatePath` (interface `ValidationResult`
in `src/types.ts`). -/
structure ValidationResult where
  isValid : Bool
  sanitizedValue : Option String := none
  error : Option String := none
  deriving Repr, DecidableEq

/-- The replacement `normalized.replace(/^(\.\.[\\/\\])+/, '')` in
`sanitizeAndValidatePath`: repeatedly strip a leading `"../"` or `"..\"`. -/
def stripLeadingDotDots : List Char → List Char
  | '.' :: '.' :: '/' :: rest => stripLeadingDotDots rest
  | '.' :: '.' :: '\\' :: rest => stripLeadingDotDots rest
  | cs => cs

/-- Character class of the regex `/^[a-zA-Z0-9\-_.]+$/` in
`sanitizeAndValidatePath`. -/
def isAllowedChar (c : Char) : Bool :=
  c.isAlpha || c.isDigit || c = '-' || c = '_' || c = '.'

/-- Test of the regex `/^[a-zA-Z0-9\-_.]+$/` (non-empty, all characters in
the allowed class). -/
def allowedPatternTest (cs : List Char) : Bool :=
  !cs.isEmpty && cs.all isAllowedChar

/-- The value `normalized` computed inside `sanitizeAndValidatePath`:
`path.normalize(userInput).replace(/^(\.\.[\\/\\])+/, '')`. -/
def sanitizeNormalized (userInput : String) : String :=
  String.mk (stripLeadingDotDots (pathNormalize userInput).data)

/-- The "dangerous patterns" test of `sanitizeAndValidatePath`: the
normalized value still contains `".."`, `"/"`, `"\"`, or a NUL byte. -/
def dangerousPatternTest (s : String) : Bool :=
  strIncludes s ".." || strIncludes s "/" || strIncludes s "\\" || strIncludes s "\x00"

/-- Model of `sanitizeAndValidatePath` from `src/utils/security.ts` (lines
11-58): reject empty input, reject over-long input, normalize and strip
leading traversal prefixes, reject remaining dangerous patterns, and check
the allowed-character regex; on success return the normalized value. -/
def sanitizeAndValidatePath (userInput : String) (maxLength : Nat := 100) : ValidationResult :=
  if userInput = "" then
    { isValid := false, error := some "Input must be a non-empty string" }
  else if userInput.data.length > maxLength then
    { isValid := false
      error := some "Input exceeds maximum length" }
  else
    let normalized := sanitizeNormalized userInput
    if dangerousPatternTest normalized then
      { isValid := false, error := some "Invalid characters detected in path" }
    else if ¬ allowedPatternTest normalized.data then
      { isValid := false
        error := some "Path contains invalid characters. Only alphanumeric, hyphens, underscores, and dots are allowed" }
    else
      { isValid := true, sanitizedValue := some normalized }

/-- Model of `isPathWithinBase` from `src/utils/security.ts` (lines 66-72):
resolve both paths against the working directory `cwd` (the implicit
`process.cwd()` of `path.resolve`) and test
`resolvedRequested.startsWith(resolvedBase + path.sep) || resolvedRequested === resolvedBase`. -/
def isPathWithinBase (requestedPath basePath cwd : String) : Bool :=
  let resolvedBase := pathResolve cwd basePath
  let resolvedRequested := pathResolve cwd requestedPath
  leadsWith (resolvedBase.data ++ ['/']) resolvedRequested.data || resolvedRequested == resolvedBase

-- Sanity checks of the path model on concrete values.
example : pathNormalize "a/../b" = "b" := by decide
example : pathNormalize "./a" = "a" := by decide
example : pathNormalize ".." = ".." := by decide
example : pathNormalize "//x" = "/x" := by decide
example : pathResolve "/app" "x" = "/app/x" := by decide
example : pathResolve "/app" "/a/b/../c" = "/a/c" := by decide
example : sanitizeAndValidatePath "button" 50 =
    { isValid := true, sanitizedValue := some "button" } := by decide
example : sanitizeAndValidatePath "../etc" 50 =
    { isValid := true, sanitizedValue := some "etc" } := by decide
example : (sanitizeAndValidatePath "a/b" 50).isValid = false := by decide
example : sanitizeAndValidatePath "./a" = { isValid := true, sanitizedValue := some "a" } := by
  decide
example : (sanitizeAndValidatePath ".." 50).isValid = false := by decide
example : isPathWithinBase "/srv/content/x" "/srv/content" "/app" = true := by decide
example : isPathWithinBase "/srv/content-sibling/x" "/srv/content" "/app" = false := by decide
example : isPathWithinBase "//x" "/" "/app" = false := by decide

/-!  Model of the tool handlers in `src/index.ts`. -/

/-- MCP error codes used by the handlers (`ErrorCode` of the MCP SDK). -/
inductive McpCode where
  | invalidParams
  | invalidRequest
  | internalError
  deriving Repr, DecidableEq

/-- An `McpError` as thrown by the handlers. -/
structure McpErr where
  code : McpCode
  message : String
  deriving Repr, DecidableEq

/-- Model of `validateCatalystComponentArgs` (`src/utils/security.ts` lines
129-138): the `component_name` argument must be a non-empty string whose
sanitization with `maxLength = 50` succeeds.  Note the sanitized value is
discarded: the handler keeps using the raw argument. -/
def validateCatalystComponentArgs (componentName : String) : Bool :=
  componentName ≠ "" && (sanitizeAndValidatePath componentName 50).isValid

/-- Allowed categories of `validatePatternArgs`. -/
def allowedCategories : List String := ["layouts", "pages", "features"]

/-- Model of `validatePatternArgs` (`src/utils/security.ts` lines 140-163). -/
def validatePatternArgs (category patternName : String) : Bool :=
  category ≠ "" && patternName ≠ "" && allowedCategories.contains category &&
    (sanitizeAndValidatePath patternName 50).isValid

/-- Zod string bound `z.string().min(1).max(50)` used by the tool input
schemas in `src/index.ts`.  For `get_library_docs` this is the only check on
`library_name`: `validateToolInput` has no case for that tool, so no
sanitization happens. -/
def zodStringOk (s : String) : Bool :=
  1 ≤ s.data.length && s.data.length ≤ 50

/-- Model of `CONFIG.catalystComponentsPath` (`src/index.ts` line 31). -/
def catalystComponentsPath (cwd : String) : String :=
  pathJoinMany [cwd, "content", "components", "catalyst"]

/-- Model of `CONFIG.patternsPath` (`src/index.ts` line 32). -/
def patternsPath (cwd : String) : String :=
  pathJoinMany [cwd, "content", "patterns"]

/-- Model of `CONFIG.libraryDocsPath` (`src/index.ts` line 34). -/
def libraryDocsPath (cwd : String) : String :=
  pathJoinMany [cwd, "content", "docs", "libraries"]

/-- The path passed to `fs.readFile` by the `get_catalyst_component` handler
(`src/index.ts` line 450) when validation passes, `none` when the handler
throws before reading.  No `isPathWithinBase` check occurs anywhere in the
handler. -/
def catalystReadTarget (cwd componentName : String) : Option String :=
  if zodStringOk componentName && validateCatalystComponentArgs componentName then
    some (pathJoin (catalystComponentsPath cwd) (componentName ++ ".tsx"))
  else none

/-- The path passed to `fs.readFile` by the `get_pattern` handler
(`src/index.ts` line 606) when validation passes. -/
def patternReadTarget (cwd category patternName : String) : Option String :=
  if zodStringOk patternName && validatePatternArgs category patternName then
    some (pathJoin (pathJoin (patternsPath cwd) category) (patternName ++ ".md"))
  else none

/-- The path passed to `fs.readFile` by the `get_library_docs` handler
(`src/index.ts` line 1232) when validation passes.  Only the zod length
bound applies: `validateToolInput('get_library_docs', ...)` falls into the
`default` branch and performs no sanitization. -/
def libraryDocsReadTarget (cwd libraryName : String) : Option String :=
  if zodStringOk libraryName then
    some (pathJoin (libraryDocsPath cwd) (libraryName ++ ".txt"))
  else none

/-- Full model of the `get_catalyst_component` handler (`src/index.ts` lines
438-488) over an abstract filesystem `files` (path ↦ contents, `none` when
`fs.readFile` fails with `ENOENT`). -/
def getCatalystComponent (files : String → Option String) (cwd componentName : String) :
    Except McpErr String :=
  match catalystReadTarget cwd componentName with
  | none =>
    .error { code := .invalidParams, message := "Invalid component_name" }
  | some componentPath =>
    match files componentPath with
    | some content =>
      .ok ("# Catalyst UI Component: " ++ componentName ++ "\n\n```typescript\n" ++
        content ++ "\n```")
    | none =>
      .error { code := .invalidRequest
               message := "Catalyst component \x27" ++ componentName ++
                 "\x27 not found. Use list_catalyst_components to see available components." }

/-- Full model of the `get_pattern` handler (`src/index.ts` lines 593-646). -/
def getPattern (files : String → Option String) (cwd category patternName : String) :
    Except McpErr String :=
  match patternReadTarget cwd category patternName with
  | none =>
    .error { code := .invalidParams, message := "Invalid pattern arguments" }
  | some patternPath =>
    match files patternPath with
    | some content => .ok content
    | none =>
      .error { code := .invalidRequest
               message := "Pattern \x27" ++ patternName ++ "\x27 not found in category \x27" ++
                 category ++ "\x27. Use list_patterns to see available patterns." }

/-- Full model of the `get_library_docs` handler (`src/index.ts` lines
1220-1270). -/
def getLibraryDocs (files : String → Option String) (cwd libraryName : String) :
    Except McpErr String :=
  match libraryDocsReadTarget cwd libraryName with
  | none =>
    .error { code := .invalidParams, message := "Invalid library_name" }
  | some libraryPath =>
    match files libraryPath with
    | some content => .ok content
    | none =>
      .error { code := .invalidRequest
               message := "Library documentation for \x27" ++ libraryName ++
                 "\x27 not found. Use list_library_docs to see available libraries." }

/-- Number of `fs.readFile` invocations performed by one
`get_catalyst_component` call: the handler body (`src/index.ts` lines
447-451) reads the file unconditionally once validation passes — there is no
cache lookup and no time dependence, so the call timestamp is irrelevant. -/
def catalystCallReads (cwd : String) (call : Nat × String) : Nat :=
  match catalystReadTarget cwd call.2 with
  | some _ => 1
  | none => 0

/-- Total number of `fs.readFile` invocations over a sequence of
`get_catalyst_component` calls, each a pair (timestamp in ms, identifier). -/
def catalystTraceReads (cwd : String) (calls : List (Nat × String)) : Nat :=
  (calls.map (catalystCallReads cwd)).sum

/-- Number of `fs.readFile` invocations performed by one `get_pattern` call
(category and pattern name): the handler body (`src/index.ts` lines 603-607)
reads unconditionally once validation passes, with no cache lookup and no
time dependence. -/
def patternCallReads (cwd : String) (call : Nat × String × String) : Nat :=
  match patternReadTarget cwd call.2.1 call.2.2 with
  | some _ => 1
  | none => 0

/-- Total number of `fs.readFile` invocations over a sequence of
`get_pattern` calls (timestamp in ms, category, pattern name). -/
def patternTraceReads (cwd : String) (calls : List (Nat × String × String)) : Nat :=
  (calls.map (patternCallReads cwd)).sum

/-- Number of `fs.readFile` invocations performed by one `get_library_docs`
call: the handler body (`src/index.ts` lines 1230-1233) reads
unconditionally once the zod bound passes, with no cache lookup and no time
dependence. -/
def libraryDocsCallReads (cwd : String) (call : Nat × String) : Nat :=
  match libraryDocsReadTarget cwd call.2 with
  | some _ => 1
  | none => 0

/-- Total number of `fs.readFile` invocations over a sequence of
`get_library_docs` calls (timestamp in ms, library name). -/
def libraryDocsTraceReads (cwd : String) (calls : List (Nat × String)) : Nat :=
  (calls.map (libraryDocsCallReads cwd)).sum

-- Sanity checks of the handler models.
example : catalystReadTarget "/app" "button" = some "/app/content/components/catalyst/button.tsx" := by
  decide
example : catalystReadTarget "/app" "../x" = some "/app/content/components/x.tsx" := by decide
example : libraryDocsReadTarget "/app" "../secret" = some "/app/content/docs/secret.txt" := by
  decide
example : patternReadTarget "/app" "layouts" "app-header" =
    some "/app/content/patterns/layouts/app-header.md" := by decide
example : isPathWithinBase "/app/content/components/x.tsx" (catalystComponentsPath "/app") "/app" = false := by
  decide

/-!  Model of `calculateRecommendations` (`src/index.ts` lines 1362-1421). -/

/-- Caller criteria (`RecommendTemplateArgs` in `src/types.ts`); every field
is optional. -/
structure RecommendCriteria where
  purpose : Option String := none
  colorPreference : Option String := none
  animations : Option String := none
  features : Option (List String) := none
  complexity : Option String := none
  deriving Repr, DecidableEq

/-- A matching profile (`data.questionnaire.matching[kit.id]`): tag sets per
dimension, each possibly absent in the JSON. -/
structure MatchProfile where
  purpose : Option (List String) := none
  colorPreference : Option (List String) := none
  animations : Option (List String) := none
  features : Option (List String) := none
  complexity : Option (List String) := none
  deriving Repr, DecidableEq

/-- A starter-kit record; the scorer reads only its `id` (the full record is
carried through to the result unchanged). -/
structure StarterKit where
  id : String
  deriving Repr, DecidableEq

/-- The template data loaded from `starter-kits.json`: the record array and
the matching map keyed by kit id. -/
structure TemplateData where
  starterKits : List StarterKit
  matching : List (String × MatchProfile)
  deriving Repr, DecidableEq

/-- One entry of the scorer result: `{ kit, score: Math.round(score), reasons }`. -/
structure Recommendation where
  kit : StarterKit
  score : Nat
  reasons : List String
  deriving Repr, DecidableEq

/-- The JavaScript test `criteria.x && matchData.x && matchData.x.includes(criteria.x)`
for a single-valued criterion: the criterion string must be present and
truthy (non-empty) and contained in the present profile tag list.  Returns
the matched string so the reason message can name it. -/
def dimHit (c : Option String) (l : Option (List String)) : Option String :=
  match c, l with
  | some s, some tags => if s ≠ "" && tags.contains s then some s else none
  | _, _ => none

/-- Intermediate per-record score state.  A JavaScript number `score` is
accumulated as the exact rational `base + 15 * featNum / featDen`; outside
the feature branch `featNum = 0` and `featDen = 1`. -/
structure ScoreAcc where
  base : Nat
  featNum : Nat
  featDen : Nat
  reasons : List String
  deriving Repr, DecidableEq

/-- Add a matched dimension: `score += pts; reasons.push(reason)`. -/
def addPoints (a : ScoreAcc) (pts : Nat) (reason : String) : ScoreAcc :=
  { a with base := a.base + pts, reasons := a.reasons ++ [reason] }

/-- The feature branch of the scoring loop (`src/index.ts` lines 1393-1400):
record the matched-feature count and the requested-feature count (the exact
feature score is `15 * featNum / featDen`), appending a reason only when at
least one feature matched. -/
def addFeatures (a : ScoreAcc) (matchedLen fsLen : Nat) : ScoreAcc :=
  { a with featNum := matchedLen, featDen := fsLen,
           reasons := a.reasons ++
             (if 0 < matchedLen then
               ["Includes " ++ toString matchedLen ++ " of your requested features"]
             else []) }

/-- The per-record scoring loop body of `calculateRecommendations`
(`src/index.ts` lines 1368-1406): purpose +40, colorPreference +15,
animations +20, features +15·(matched/requested), complexity +10, with a
reason string appended per matched dimension (the feature reason only when
at least one feature matched). -/
def kitScore (criteria : RecommendCriteria) (m : MatchProfile) : ScoreAcc :=
  let a0 : ScoreAcc := { base := 0, featNum := 0, featDen := 1, reasons := [] }
  let a1 := match dimHit criteria.purpose m.purpose with
    | some s => addPoints a0 40 ("Perfect match for " ++ s ++ " use case")
    | none => a0
  let a2 := match dimHit criteria.colorPreference m.colorPreference with
    | some s => addPoints a1 15 ("Matches " ++ s ++ " color scheme preference")
    | none => a1
  let a3 := match dimHit criteria.animations m.animations with
    | some s => addPoints a2 20 ("Has " ++ s ++ " animation level")
    | none => a2
  let a4 := match criteria.features, m.features with
    | some fs, some ms =>
      if 0 < fs.length then
        addFeatures a3 (fs.filter (fun f => ms.contains f)).length fs.length
      else a3
    | _, _ => a3
  match dimHit criteria.complexity m.complexity with
  | some s => addPoints a4 10 ("Matches " ++ s ++ " complexity level")
  | none => a4

/-- The test `score > 0` on the exact rational
`base + 15 * featNum / featDen` (positive iff one of the numerators is). -/
def rawScorePos (a : ScoreAcc) : Bool :=
  0 < a.base || 0 < a.featNum

/-- Model of `Math.round(score)` on the exact rational score: with `b = base`,
`n = featNum`, `d = featDen > 0`, `⌊b + 15n/d + 1/2⌋ = b + (30n + d) / (2d)`
in integer division. -/
def roundedScore (a : ScoreAcc) : Nat :=
  a.base + (30 * a.featNum + a.featDen) / (2 * a.featDen)

/-- The exact rational value of the JavaScript `score` variable. -/
def rawScoreQ (a : ScoreAcc) : ℚ :=
  (a.base : ℚ) + 15 * (a.featNum : ℚ) / (a.featDen : ℚ)

/-- The loop body of `calculateRecommendations` for one kit: look up the
matching profile (`continue` when absent), score, and keep the record only
when the raw (pre-rounding) score is strictly positive. -/
def scoreRecord (matching : List (String × MatchProfile)) (criteria : RecommendCriteria)
    (kit : StarterKit) : Option Recommendation :=
  match matching.lookup kit.id with
  | none => none
  | some m =>
    let a := kitScore criteria m
    if rawScorePos a then some { kit := kit, score := roundedScore a, reasons := a.reasons }
    else none

/-- One step of the JavaScript stable sort
`recommendations.sort((a, b) => b.score - a.score)`: insert `x` (a later
element) into the already-sorted accumulator, after every element whose
score is greater than or equal to its own. -/
def insertRec (x : Recommendation) : List Recommendation → List Recommendation
  | [] => [x]
  | y :: ys => if y.score < x.score then x :: y :: ys else y :: insertRec x ys

/-- Stable descending sort by score (the ECMAScript `Array.prototype.sort`
is stable; insertion from the left preserves input order on ties). -/
def sortRecs (l : List Recommendation) : List Recommendation :=
  l.foldl (fun acc x => insertRec x acc) []

/-- Model of `calculateRecommendations` (`src/index.ts` lines 1362-1421):
score every kit that has a matching profile, keep the strictly-positive
ones in input order, then sort by rounded score descending (stable). -/
def calculateRecommendations (data : TemplateData) (criteria : RecommendCriteria) :
    List Recommendation :=
  sortRecs (data.starterKits.filterMap (scoreRecord data.matching criteria))

/-- Questionnaire answers (`QuestionnaireArgs.answers`) restricted to the
five keys the handler reads; an absent key is `none`. -/
structure QuestionnaireAnswers where
  purpose : Option String := none
  colorPreference : Option String := none
  animations : Option String := none
  features : Option (List String) := none
  complexity : Option String := none
  deriving Repr, DecidableEq

/-- The criteria object built by the `answer_questionnaire` handler
(`src/index.ts` lines 1144-1150) from the submitted answers. -/
def criteriaFromAnswers (a : QuestionnaireAnswers) : RecommendCriteria :=
  { purpose := a.purpose
    colorPreference := a.colorPreference
    animations := a.animations
    features := a.features
    complexity := a.complexity }

/-- The recommendation list computed by the `recommend_template` handler
(`src/index.ts` line 1056). -/
def recommendTemplateRecommendations (data : TemplateData) (criteria : RecommendCriteria) :
    List Recommendation :=
  calculateRecommendations data criteria

/-- The recommendation list computed by the `answer_questionnaire` handler
(`src/index.ts` lines 1144-1152). -/
def answerQuestionnaireRecommendations (data : TemplateData) (a : QuestionnaireAnswers) :
    List Recommendation :=
  calculateRecommendations data (criteriaFromAnswers a)

/-!  Model of `searchInContent` (`src/index.ts` lines 1434-1454). -/

/-- Case-insensitive line match: `lines[i].toLowerCase().includes(queryLower)`
(ASCII lowercasing, which covers the repository's documentation). -/
def lineMatches (queryLower : List Char) (line : String) : Bool :=
  containsSeq queryLower (line.data.map Char.toLower)

/-- The excerpt emitted for a match at line `i`: three lines of context each
side, fenced in backticks (`src/index.ts` lines 1443-1446). -/
def excerptBlock (lines : List String) (i : Nat) : String :=
  let strt := i - 3
  let stop := min lines.length (i + 3 + 1)
  "```\n" ++ String.intercalate "\n" ((lines.drop strt).take (stop - strt)) ++ "\n```"

/-- The scan loop of `searchInContent`: advance line by line, emit an
excerpt on a match and jump past its context window (`i += 3` plus the
loop increment), stop at end of content or at `limit` excerpts.  The loop
recurses on an explicit step counter `fuel`; every iteration increases `i`
by at least 1, so `fuel = lines.length` (as supplied by `searchInContent`)
never runs out before the `i < lines.length` guard stops the loop. -/
def searchLoop (lines : List String) (ql : List Char) (limit : Nat) :
    Nat → Nat → List String → List String
  | 0, _, acc => acc
  | fuel + 1, i, acc =>
    if h : i < lines.length ∧ acc.length < limit then
      if lineMatches ql (lines.get ⟨i, h.1⟩) then
        searchLoop lines ql limit fuel (i + 3 + 1) (acc ++ [excerptBlock lines i])
      else searchLoop lines ql limit fuel (i + 1) acc
    else acc

/-- The line list `content.split('\n')`. -/
def contentLines (content : String) : List String :=
  (splitOnChar '\n' content.data).map String.mk

/-- Model of `searchInContent` (`src/index.ts` lines 1434-1454). -/
def searchInContent (content query : String) (limit : Nat) : List String :=
  searchLoop (contentLines content) (query.data.map Char.toLower) limit
    (contentLines content).length 0 []

-- Sanity checks of the scorer and search models.
example :
    kitScore
      { purpose := some "dashboard", colorPreference := some "professional"
        features := some ["auth", "darkmode"], complexity := some "advanced" }
      { purpose := some ["dashboard"], colorPreference := some ["professional"]
        animations := some ["minimal"], features := some ["auth", "darkmode", "forms"]
        complexity := some ["advanced"] } =
      { base := 65, featNum := 2, featDen := 2
        reasons := ["Perfect match for dashboard use case"
                    , "Matches professional color scheme preference"
                    , "Includes 2 of your requested features"
                    , "Matches advanced complexity level"] } := by decide
example :
    roundedScore { base := 65, featNum := 2, featDen := 2, reasons := [] } = 80 := by decide
example :
    roundedScore { base := 0, featNum := 1, featDen := 31, reasons := [] } = 0 := by decide
example : rawScorePos { base := 0, featNum := 1, featDen := 31, reasons := [] } = true := by decide
example : searchInContent "a\nb\nc\nd\ne\nf\na" "a" 5 =
    ["```\na\nb\nc\nd\n```", "```\nd\ne\nf\na\n```"] := by decide
example : (searchInContent "a\na" "a" 5).length = 1 := by decide

/-!  Shared auxiliary lemmas. -/

theorem stringMkData (s : String) : String.mk s.data = s := by
  cases s
  rfl

theorem stringNeEmptyOfData {s : String} (h : s.data ≠ []) : s ≠ "" := by
  intro he
  subst he
  simp at h

theorem getLastMemOfChar : ∀ {l : List Char} {a : Char}, l.getLast? = some a → a ∈ l := by
  intro l
  induction l with
  | nil => intro a h; simp [List.getLast?] at h
  | cons x xs ih =>
    intro a h
    cases xs with
    | nil => simp [List.getLast?] at h; simp [h]
    | cons y ys =>
      rw [List.getLast?_cons_cons] at h
      exact List.mem_cons_of_mem _ (ih h)

theorem containsSeqSingleFalse {c : Char} {cs : List Char} (h : c ∉ cs) :
    containsSeq [c] cs = false := by
  induction cs with
  | nil => rfl
  | cons x xs ih =>
    have hx : c ≠ x := fun he => h (he ▸ List.mem_cons_self x xs)
    have hxs : c ∉ xs := fun hm => h (List.mem_cons_of_mem x hm)
    simp [containsSeq, leadsWith, hx, ih hxs]

theorem splitOnCharNoSep {c : Char} {cs : List Char} (h : c ∉ cs) :
    splitOnChar c cs = [cs] := by
  induction cs with
  | nil => rfl
  | cons x xs ih =>
    have hx : x ≠ c := fun he => h (he ▸ List.mem_cons_self x xs)
    have hxs : c ∉ xs := fun hm => h (List.mem_cons_of_mem x hm)
    simp [splitOnChar, ih hxs, hx]

theorem stripLeadingDotDotsId {cs : List Char} (h1 : '/' ∉ cs) (h2 : '\\' ∉ cs) :
    stripLeadingDotDots cs = cs := by
  rw [stripLeadingDotDots.eq_def]
  split
  · simp_all
  · simp_all
  · rfl

theorem isAllowedCharNe {c d : Char} (hc : isAllowedChar c = true)
    (hd : isAllowedChar d = false) : c ≠ d := by
  intro he
  rw [he, hd] at hc
  exact Bool.false_ne_true hc

theorem notMemOfAllAllowed {cs : List Char} {d : Char} (hall : cs.all isAllowedChar = true)
    (hd : isAllowedChar d = false) : d ∉ cs := by
  intro hm
  exact Bool.false_ne_true (hd ▸ (List.all_eq_true.mp hall d hm))

/-- Normalizing a non-empty separator-free string is the identity. -/
theorem pathNormalizeSingleSeg {s : String} (hne : s.data ≠ []) (h : '/' ∉ s.data) :
    pathNormalize s = s := by
  by_cases hdot : s.data = ['.']
  · have hs : s = "." := by rw [← stringMkData s, hdot]
    rw [hs]
    decide
  by_cases hdd : s.data = ['.', '.']
  · have hs : s = ".." := by rw [← stringMkData s, hdd]
    rw [hs]
    decide
  have habs : headIsSlash s.data = false := by
    cases hd : s.data with
    | nil => exact absurd hd hne
    | cons x xs =>
      have : x ≠ '/' := fun he => h (hd ▸ he ▸ List.mem_cons_self x xs)
      simp [headIsSlash, this]
  have htr : lastIsSlash s.data = false := by
    unfold lastIsSlash
    cases hg : s.data.getLast? with
    | none => rfl
    | some c =>
      have hc : c ≠ '/' := fun he => h (he ▸ getLastMemOfChar hg)
      simp [hc]
  have hsplit : (splitOnChar '/' s.data).filter (· ≠ []) = [s.data] := by
    rw [splitOnCharNoSep h]
    simp [hne]
  have hstack : collapseRel [] [s.data] = [s.data] := by
    simp [collapseRel, hdot, hdd]
  unfold pathNormalize
  rw [if_neg hne]
  simp only [habs, htr, hsplit, hstack, joinSegs, Bool.false_eq_true, if_false]
  rw [if_neg hne]
  simp [stringMkData s]

/-!  Claim C1. -/

/-- Claim C1: the claim states that every fetch-by-identifier operation
checks the assembled path with `isPathWithinBase` before any filesystem
read, rejecting on a false result.  The code contains no such call: this
theorem evaluates the handler models at concrete inputs and shows that
`get_library_docs` (whose argument is never sanitized) and
`get_catalyst_component` (validated, but the raw argument is joined into the
path while the sanitizer strips leading `../` and accepts the input) both
reach `fs.readFile` with a path for which `isPathWithinBase` is false. -/
theorem C1_fetch_reads_skip_boundary_check :
    libraryDocsReadTarget "/app" "../secret" = some "/app/content/docs/secret.txt" ∧
    isPathWithinBase "/app/content/docs/secret.txt" (libraryDocsPath "/app") "/app" = false ∧
    catalystReadTarget "/app" "../x" = some "/app/content/components/x.tsx" ∧
    isPathWithinBase "/app/content/components/x.tsx" (catalystComponentsPath "/app") "/app"
      = false := by
  decide

/-!  Claim C2. -/

/-- Claim C2 counterexample: the input `"../etc"` contains both `".."` and
`"/"`, yet `sanitizeAndValidatePath` succeeds and returns `"etc"` — the
normalize-then-strip step removes the offending characters before the
dangerous-pattern test, so the claim as stated is false. -/
theorem C2_counterexample :
    strIncludes "../etc" ".." = true ∧ strIncludes "../etc" "/" = true ∧
    sanitizeAndValidatePath "../etc" = { isValid := true, sanitizedValue := some "etc" } := by
  decide

/-- Claim C2 (amended): for every input whose value after normalization and
leading-`../` stripping still contains `".."`, `"/"`, `"\"`, or a NUL byte,
`sanitizeAndValidatePath` fails and never returns a sanitized value. -/
theorem C2_sanitize_fails_on_dangerous_normalized (input : String) (maxLength : Nat)
    (h : dangerousPatternTest (sanitizeNormalized input) = true) :
    (sanitizeAndValidatePath input maxLength).isValid = false ∧
    (sanitizeAndValidatePath input maxLength).sanitizedValue = none := by
  unfold sanitizeAndValidatePath
  split_ifs <;> simp_all

/-- Claim C2 witness: the amended theorem applied at the concrete input
`".."` (whose normalized value still contains `".."`). -/
theorem C2_witness :
    (sanitizeAndValidatePath ".." 100).isValid = false ∧
    (sanitizeAndValidatePath ".." 100).sanitizedValue = none :=
  C2_sanitize_fails_on_dangerous_normalized ".." 100 (by decide)

/-!  Claim C3. -/

/-- Test of the specification regex `^[A-Za-z0-9\-_.]{1,50}$`. -/
def idPatternTest (s : String) : Bool :=
  allowedPatternTest s.data && s.data.length ≤ 50

/-- Claim C3 counterexample: the input `".."` matches
`^[A-Za-z0-9\-_.]{1,50}$` (dots are in the character class), yet
`sanitizeAndValidatePath` rejects it, so the claim as stated is false. -/
theorem C3_counterexample :
    idPatternTest ".." = true ∧ (sanitizeAndValidatePath ".." 50).isValid = false := by
  decide

/-- Claim C3 (amended): every input matching `^[A-Za-z0-9\-_.]{1,50}$` that
does not contain `".."` as a substring is accepted by
`sanitizeAndValidatePath` with `maxLength = 50` and returned unchanged. -/
theorem C3_sanitize_accepts_pattern_inputs (s : String)
    (hpat : idPatternTest s = true) (hdd : strIncludes s ".." = false) :
    sanitizeAndValidatePath s 50 = { isValid := true, sanitizedValue := some s } := by
  have hp' := hpat
  unfold idPatternTest allowedPatternTest at hp'
  rw [Bool.and_eq_true, Bool.and_eq_true] at hp'
  obtain ⟨⟨hne', hall⟩, hlen'⟩ := hp'
  have hne : s.data ≠ [] := by
    intro hd
    rw [hd] at hne'
    simp at hne'
  have hlen : s.data.length ≤ 50 := by simpa using hlen'
  have hslash : '/' ∉ s.data := notMemOfAllAllowed hall (by decide)
  have hback : '\\' ∉ s.data := notMemOfAllAllowed hall (by decide)
  have hnul : '\x00' ∉ s.data := notMemOfAllAllowed hall (by decide)
  have hnorm : sanitizeNormalized s = s := by
    unfold sanitizeNormalized
    rw [pathNormalizeSingleSeg hne hslash, stripLeadingDotDotsId hslash hback]
  have hdanger : dangerousPatternTest (sanitizeNormalized s) = false := by
    rw [hnorm]
    unfold dangerousPatternTest strIncludes
    have c1 : containsSeq ['.', '.'] s.data = false := by
      have : ("..").data = ['.', '.'] := rfl
      rw [← this]
      exact hdd
    have c2 : containsSeq ['/'] s.data = false := containsSeqSingleFalse hslash
    have c3 : containsSeq ['\\'] s.data = false := containsSeqSingleFalse hback
    have c4 : containsSeq ['\x00'] s.data = false := containsSeqSingleFalse hnul
    simp only [show ("..").data = ['.', '.'] from rfl, show ("/").data = ['/'] from rfl,
      show ("\\").data = ['\\'] from rfl, show ("\x00").data = ['\x00'] from rfl]
    rw [c1, c2, c3, c4]
    rfl
  have hpattest : allowedPatternTest (sanitizeNormalized s).data = true := by
    rw [hnorm]
    simp [allowedPatternTest, hall, List.isEmpty_iff, hne]
  unfold sanitizeAndValidatePath
  rw [if_neg (stringNeEmptyOfData hne), if_neg (by omega : ¬ s.data.length > 50)]
  simp only [hdanger, hpattest]
  simp [hnorm]

/-- Claim C3 witness: the amended theorem applied at the concrete input
`"button"`. -/
theorem C3_witness :
    sanitizeAndValidatePath "button" 50 =
      { isValid := true, sanitizedValue := some "button" } :=
  C3_sanitize_accepts_pattern_inputs "button" (by decide) (by decide)

/-!  Claim C4. -/

/-- Claim C4 counterexample: for each fetch-by-identifier operation
(`get_catalyst_component`, `get_pattern`, `get_library_docs`), two calls
with the same identifier 60 seconds apart (well inside the 5-minute window)
perform two underlying `fs.readFile` invocations, not one — none of the
handlers consults a cache. -/
theorem C4_counterexample :
    (60000 : Nat) - 0 < 300000 ∧
    catalystTraceReads "/app" [(0, "button"), (60000, "button")] = 2 ∧
    catalystTraceReads "/app" [(0, "button"), (60000, "button")] ≠ 1 ∧
    patternTraceReads "/app" [(0, "layouts", "app-header"), (60000, "layouts", "app-header")]
      = 2 ∧
    patternTraceReads "/app" [(0, "layouts", "app-header"), (60000, "layouts", "app-header")]
      ≠ 1 ∧
    libraryDocsTraceReads "/app" [(0, "mdx"), (60000, "mdx")] = 2 ∧
    libraryDocsTraceReads "/app" [(0, "mdx"), (60000, "mdx")] ≠ 1 := by
  decide

/-- Claim C4 (amended): every fetch-by-identifier call whose arguments pass
validation performs its own underlying file read, in each of the three
handlers: two calls with the same identifier inside the 5-minute window
perform two reads, and a third call after the window performs a third — the
handlers read via `fs.readFile` unconditionally and consult no cache, so
call times are irrelevant. -/
theorem C4_each_call_performs_a_read (cwd name cat pname lname : String) (t1 t2 t3 : Nat)
    (hvc : catalystReadTarget cwd name ≠ none)
    (hvp : patternReadTarget cwd cat pname ≠ none)
    (hvl : libraryDocsReadTarget cwd lname ≠ none)
    (_hwin : t2 - t1 < 300000) (_hlate : 300000 ≤ t3 - t1) :
    (catalystTraceReads cwd [(t1, name), (t2, name)] = 2 ∧
      catalystTraceReads cwd [(t1, name), (t2, name), (t3, name)] = 3) ∧
    (patternTraceReads cwd [(t1, cat, pname), (t2, cat, pname)] = 2 ∧
      patternTraceReads cwd [(t1, cat, pname), (t2, cat, pname), (t3, cat, pname)] = 3) ∧
    (libraryDocsTraceReads cwd [(t1, lname), (t2, lname)] = 2 ∧
      libraryDocsTraceReads cwd [(t1, lname), (t2, lname), (t3, lname)] = 3) := by
  refine ⟨?_, ?_, ?_⟩
  · match hc : catalystReadTarget cwd name with
    | none => exact absurd hc hvc
    | some p =>
      constructor <;> simp [catalystTraceReads, catalystCallReads, hc]
  · match hc : patternReadTarget cwd cat pname with
    | none => exact absurd hc hvp
    | some p =>
      constructor <;> simp [patternTraceReads, patternCallReads, hc]
  · match hc : libraryDocsReadTarget cwd lname with
    | none => exact absurd hc hvl
    | some p =>
      constructor <;> simp [libraryDocsTraceReads, libraryDocsCallReads, hc]

/-- Claim C4 witness: the amended theorem applied at the identifiers
`"button"`, `"layouts"`/`"app-header"` and `"mdx"` with call times 0ms,
60000ms and 300000ms. -/
theorem C4_witness :
    (catalystTraceReads "/app" [(0, "button"), (60000, "button")] = 2 ∧
      catalystTraceReads "/app" [(0, "button"), (60000, "button"), (300000, "button")] = 3) ∧
    (patternTraceReads "/app" [(0, "layouts", "app-header"), (60000, "layouts", "app-header")]
        = 2 ∧
      patternTraceReads "/app" [(0, "layouts", "app-header"), (60000, "layouts", "app-header"),
        (300000, "layouts", "app-header")] = 3) ∧
    (libraryDocsTraceReads "/app" [(0, "mdx"), (60000, "mdx")] = 2 ∧
      libraryDocsTraceReads "/app" [(0, "mdx"), (60000, "mdx"), (300000, "mdx")] = 3) :=
  C4_each_call_performs_a_read "/app" "button" "layouts" "app-header" "mdx" 0 60000 300000
    (by decide) (by decide) (by decide) (by decide) (by decide)

/-!  Substring helper lemmas for the error-message claims. -/

theorem leadsWithSelfAppend : ∀ (xs ys : List Char), leadsWith xs (xs ++ ys) = true := by
  intro xs
  induction xs with
  | nil => intro ys; rfl
  | cons x r ih => intro ys; simp [leadsWith, ih]

theorem containsSeqOfLeads {pat cs : List Char} (h : leadsWith pat cs = true) :
    containsSeq pat cs = true := by
  cases cs with
  | nil => exact h
  | cons c r => simp [containsSeq, h]

theorem containsSeqAppendLeft {pat ys : List Char} (xs : List Char)
    (h : containsSeq pat ys = true) : containsSeq pat (xs ++ ys) = true := by
  induction xs with
  | nil => simpa using h
  | cons x r ih => simp [containsSeq, ih]

theorem leadsWithAppendOfLeads {pat xs : List Char} (ys : List Char)
    (h : leadsWith pat xs = true) : leadsWith pat (xs ++ ys) = true := by
  induction pat generalizing xs with
  | nil => rfl
  | cons p ps ih =>
    cases xs with
    | nil => simp [leadsWith] at h
    | cons x r =>
      simp [leadsWith] at h ⊢
      exact ⟨h.1, ih h.2⟩

theorem containsSeqAppendRight {pat xs : List Char} (ys : List Char)
    (h : containsSeq pat xs = true) : containsSeq pat (xs ++ ys) = true := by
  induction xs with
  | nil =>
    cases pat with
    | nil => cases ys with
      | nil => rfl
      | cons z zs => simp [containsSeq, leadsWith]
    | cons p ps => simp [containsSeq, leadsWith] at h
  | cons x r ih =>
    simp [containsSeq] at h ⊢
    rcases h with hl | hc
    · exact Or.inl (leadsWithAppendOfLeads ys hl)
    · exact Or.inr (ih hc)

/-- A string occurring verbatim between two others is reported by
JavaScript `includes`. -/
theorem strIncludesMiddle (pre name post : String) :
    strIncludes (pre ++ name ++ post) name = true := by
  unfold strIncludes
  rw [String.data_append, String.data_append]
  apply containsSeqAppendRight
  apply containsSeqAppendLeft
  apply containsSeqOfLeads
  have := leadsWithSelfAppend name.data []
  simpa using this

/-- A concrete substring of the tail is reported by JavaScript `includes`
on the whole message. -/
theorem strIncludesTail (pre name post sub : String)
    (h : strIncludes post sub = true) :
    strIncludes (pre ++ name ++ post) sub = true := by
  unfold strIncludes at h ⊢
  rw [String.data_append, String.data_append, List.append_assoc]
  apply containsSeqAppendLeft
  apply containsSeqAppendLeft
  exact h

/-- JavaScript `includes` is preserved by appending on the right. -/
theorem strIncludesAppendRight (a b sub : String) (h : strIncludes a sub = true) :
    strIncludes (a ++ b) sub = true := by
  unfold strIncludes at h ⊢
  rw [String.data_append]
  exact containsSeqAppendRight _ h

/-- JavaScript `includes` is preserved by appending on the left. -/
theorem strIncludesAppendLeft (a b sub : String) (h : strIncludes b sub = true) :
    strIncludes (a ++ b) sub = true := by
  unfold strIncludes at h ⊢
  rw [String.data_append]
  exact containsSeqAppendLeft _ h

/-- Every string includes itself. -/
theorem strIncludesSelf (s : String) : strIncludes s s = true := by
  unfold strIncludes
  apply containsSeqOfLeads
  simpa using leadsWithSelfAppend s.data []

/-!  Claim C6. -/

/-- The criteria object of the claim:
`{purpose: "dashboard", colorPreference: "professional",
features: ["auth","darkmode"], complexity: "advanced"}` (no animations). -/
def dashboardCriteria : RecommendCriteria :=
  { purpose := some "dashboard", colorPreference := some "professional"
    features := some ["auth", "darkmode"], complexity := some "advanced" }

/-- A concrete profile matching all four supplied dimensions. -/
def dashboardProfile : MatchProfile :=
  { purpose := some ["dashboard", "app"], colorPreference := some ["professional"]
    animations := some ["minimal"], features := some ["auth", "darkmode", "blog"]
    complexity := some ["advanced"] }

/-- The one-record data set used by the C6 counterexample. -/
def dashboardData : TemplateData :=
  { starterKits := [{ id := "admin-dashboard" }]
    matching := [("admin-dashboard", dashboardProfile)] }

/-- Claim C6 counterexample: scoring the claim's criteria against a record
whose profile matches all four supplied dimensions yields score 80 — the
weights are purpose 40 + colorPreference 15 + features 15 + complexity 10,
and the animations weight 20 is not earned because the criteria supply no
animations — so the claimed score 100 is wrong (the reasons count 4 is
right). -/
theorem C6_counterexample :
    calculateRecommendations dashboardData dashboardCriteria =
      [{ kit := { id := "admin-dashboard" }, score := 80
         reasons := ["Perfect match for dashboard use case"
                     , "Matches professional color scheme preference"
                     , "Includes 2 of your requested features"
                     , "Matches advanced complexity level"] }] ∧
    (80 : Nat) ≠ 100 := by
  decide

/-- Claim C6 (amended): scoring the claim's criteria against any record
whose matching profile matches all four supplied dimensions yields a scored
result with score 80 and four reasons. -/
theorem C6_full_match_scores_80 (matching : List (String × MatchProfile))
    (kit : StarterKit) (m : MatchProfile)
    (hlk : matching.lookup kit.id = some m)
    (hp : ∃ l, m.purpose = some l ∧ l.contains "dashboard" = true)
    (hc : ∃ l, m.colorPreference = some l ∧ l.contains "professional" = true)
    (hf : ∃ l, m.features = some l ∧ l.contains "auth" = true ∧ l.contains "darkmode" = true)
    (hx : ∃ l, m.complexity = some l ∧ l.contains "advanced" = true) :
    ∃ r, scoreRecord matching dashboardCriteria kit = some r ∧
      r.score = 80 ∧ r.reasons.length = 4 := by
  obtain ⟨lp, hp1, hp2⟩ := hp
  obtain ⟨lc, hc1, hc2⟩ := hc
  obtain ⟨lf, hf1, hf2, hf3⟩ := hf
  obtain ⟨lx, hx1, hx2⟩ := hx
  have hp2m : "dashboard" ∈ lp := by simpa using hp2
  have hc2m : "professional" ∈ lc := by simpa using hc2
  have hf2m : "auth" ∈ lf := by simpa using hf2
  have hf3m : "darkmode" ∈ lf := by simpa using hf3
  have hx2m : "advanced" ∈ lx := by simpa using hx2
  have hacc : kitScore dashboardCriteria m =
      { base := 65, featNum := 2, featDen := 2
        reasons := ["Perfect match for dashboard use case"
                    , "Matches professional color scheme preference"
                    , "Includes 2 of your requested features"
                    , "Matches advanced complexity level"] } := by
    unfold kitScore
    simp [dashboardCriteria, dimHit, hp1, hc1, hf1, hx1, hp2m, hc2m, hf2m, hf3m, hx2m,
      addPoints, addFeatures, List.filter_cons, List.filter_nil]
    decide
  have hpos : rawScorePos (kitScore dashboardCriteria m) = true := by
    rw [hacc]
    decide
  have hscore : roundedScore (kitScore dashboardCriteria m) = 80 := by
    rw [hacc]
    decide
  refine ⟨{ kit := kit, score := roundedScore (kitScore dashboardCriteria m)
            reasons := (kitScore dashboardCriteria m).reasons }, ?_, hscore, ?_⟩
  · unfold scoreRecord
    rw [hlk]
    simp [hpos]
  · rw [hacc]
    simp

/-- Claim C6 witness: the amended theorem applied at the concrete
all-four-dimensions profile `dashboardProfile`. -/
theorem C6_witness :
    ∃ r, scoreRecord [("admin-dashboard", dashboardProfile)] dashboardCriteria
        { id := "admin-dashboard" } = some r ∧ r.score = 80 ∧ r.reasons.length = 4 :=
  C6_full_match_scores_80 [("admin-dashboard", dashboardProfile)] { id := "admin-dashboard" }
    dashboardProfile (by decide)
    ⟨["dashboard", "app"], by decide, by decide⟩
    ⟨["professional"], by decide, by decide⟩
    ⟨["auth", "darkmode", "blog"], by decide, by decide, by decide⟩
    ⟨["advanced"], by decide, by decide⟩

/-!  Claim C9. -/

/-- Claim C9: when a fetch-by-identifier handler hits a missing file
(`fs.readFile` fails with `ENOENT`), it throws an `McpError` of code
`InvalidRequest` whose message contains the requested identifier, the words
"not found", and the name of the companion list operation
(`list_catalyst_components`, `list_patterns`, `list_library_docs`
respectively). -/
theorem C9_not_found_messages (files : String → Option String)
    (cwd name cat pname lname cp pp lp : String)
    (hct : catalystReadTarget cwd name = some cp) (hcf : files cp = none)
    (hpt : patternReadTarget cwd cat pname = some pp) (hpf : files pp = none)
    (hlt : libraryDocsReadTarget cwd lname = some lp) (hlf : files lp = none) :
    (∃ e, getCatalystComponent files cwd name = .error e ∧ e.code = .invalidRequest ∧
      strIncludes e.message name = true ∧ strIncludes e.message "not found" = true ∧
      strIncludes e.message "list_catalyst_components" = true) ∧
    (∃ e, getPattern files cwd cat pname = .error e ∧ e.code = .invalidRequest ∧
      strIncludes e.message pname = true ∧ strIncludes e.message "not found" = true ∧
      strIncludes e.message "list_patterns" = true) ∧
    (∃ e, getLibraryDocs files cwd lname = .error e ∧ e.code = .invalidRequest ∧
      strIncludes e.message lname = true ∧ strIncludes e.message "not found" = true ∧
      strIncludes e.message "list_library_docs" = true) := by
  have h1 : getCatalystComponent files cwd name =
      .error { code := .invalidRequest
               message := "Catalyst component \x27" ++ name ++
                 "\x27 not found. Use list_catalyst_components to see available components." } := by
    simp only [getCatalystComponent, hct, hcf]
  have h2 : getPattern files cwd cat pname =
      .error { code := .invalidRequest
               message := "Pattern \x27" ++ pname ++ "\x27 not found in category \x27" ++
                 cat ++ "\x27. Use list_patterns to see available patterns." } := by
    simp only [getPattern, hpt, hpf]
  have h3 : getLibraryDocs files cwd lname =
      .error { code := .invalidRequest
               message := "Library documentation for \x27" ++ lname ++
                 "\x27 not found. Use list_library_docs to see available libraries." } := by
    simp only [getLibraryDocs, hlt, hlf]
  refine ⟨⟨_, h1, rfl, ?_, ?_, ?_⟩, ⟨_, h2, rfl, ?_, ?_, ?_⟩, ⟨_, h3, rfl, ?_, ?_, ?_⟩⟩
  · exact strIncludesAppendRight _ _ _ (strIncludesAppendLeft _ _ _ (strIncludesSelf name))
  · exact strIncludesAppendLeft _ _ _ (by decide)
  · exact strIncludesAppendLeft _ _ _ (by decide)
  · exact strIncludesAppendRight _ _ _ (strIncludesAppendRight _ _ _
      (strIncludesAppendRight _ _ _
        (strIncludesAppendLeft _ _ _ (strIncludesSelf pname))))
  · exact strIncludesAppendRight _ _ _ (strIncludesAppendRight _ _ _
      (strIncludesAppendLeft _ _ _ (by decide)))
  · exact strIncludesAppendLeft _ _ _ (by decide)
  · exact strIncludesAppendRight _ _ _ (strIncludesAppendLeft _ _ _ (strIncludesSelf lname))
  · exact strIncludesAppendLeft _ _ _ (by decide)
  · exact strIncludesAppendLeft _ _ _ (by decide)

/-- Claim C9 witness: the theorem applied to an empty filesystem with the
identifiers `"button"`, `"layouts"`/`"app-header"` and `"mdx"`. -/
theorem C9_witness :
    (∃ e, getCatalystComponent (fun _ => none) "/app" "button" = .error e ∧
      e.code = .invalidRequest ∧ strIncludes e.message "button" = true ∧
      strIncludes e.message "not found" = true ∧
      strIncludes e.message "list_catalyst_components" = true) ∧
    (∃ e, getPattern (fun _ => none) "/app" "layouts" "app-header" = .error e ∧
      e.code = .invalidRequest ∧ strIncludes e.message "app-header" = true ∧
      strIncludes e.message "not found" = true ∧
      strIncludes e.message "list_patterns" = true) ∧
    (∃ e, getLibraryDocs (fun _ => none) "/app" "mdx" = .error e ∧
      e.code = .invalidRequest ∧ strIncludes e.message "mdx" = true ∧
      strIncludes e.message "not found" = true ∧
      strIncludes e.message "list_library_docs" = true) :=
  C9_not_found_messages (fun _ => none) "/app" "button" "layouts" "app-header" "mdx"
    "/app/content/components/catalyst/button.tsx" "/app/content/patterns/layouts/app-header.md"
    "/app/content/docs/libraries/mdx.txt"
    (by decide) rfl (by decide) rfl (by decide) rfl

/-!  Claim C10. -/

/-- Claim C10: for every template data set, answers record and criteria
object whose five recommendation fields agree, `answer_questionnaire` and
`recommend_template` compute exactly the same recommendation sequence (same
records, scores, reasons and order): both delegate to
`calculateRecommendations`, and the criteria object built from the answers
is then equal to the given criteria. -/
theorem C10_questionnaire_equals_recommend (data : TemplateData)
    (a : QuestionnaireAnswers) (c : RecommendCriteria)
    (h1 : a.purpose = c.purpose) (h2 : a.colorPreference = c.colorPreference)
    (h3 : a.animations = c.animations) (h4 : a.features = c.features)
    (h5 : a.complexity = c.complexity) :
    answerQuestionnaireRecommendations data a = recommendTemplateRecommendations data c := by
  unfold answerQuestionnaireRecommendations recommendTemplateRecommendations criteriaFromAnswers
  rw [h1, h2, h3, h4, h5]

/-- Claim C10 witness: the theorem applied to the C6 data set with matching
answers and criteria. -/
theorem C10_witness :
    answerQuestionnaireRecommendations dashboardData
      { purpose := some "dashboard", colorPreference := some "professional"
        features := some ["auth", "darkmode"], complexity := some "advanced" } =
    recommendTemplateRecommendations dashboardData dashboardCriteria :=
  C10_questionnaire_equals_recommend dashboardData
    { purpose := some "dashboard", colorPreference := some "professional"
      features := some ["auth", "darkmode"], complexity := some "advanced" }
    dashboardCriteria rfl rfl rfl rfl rfl

/-!  Sorting lemmas for Claim C7. -/

theorem insertRecPerm (x : Recommendation) (l : List Recommendation) :
    (insertRec x l).Perm (x :: l) := by
  induction l with
  | nil => exact List.Perm.refl _
  | cons y ys ih =>
    unfold insertRec
    split
    · exact List.Perm.refl _
    · exact ((ih.cons y).trans (List.Perm.swap x y ys))

theorem sortRecsPermAux (l : List Recommendation) :
    ∀ acc, (List.foldl (fun acc x => insertRec x acc) acc l).Perm (acc ++ l) := by
  induction l with
  | nil => intro acc; simp
  | cons x xs ih =>
    intro acc
    refine ((ih (insertRec x acc)).trans ?_)
    refine (((insertRecPerm x acc).append_right xs).trans ?_)
    exact List.perm_middle.symm

theorem sortRecsPerm (l : List Recommendation) : (sortRecs l).Perm l := by
  simpa using sortRecsPermAux l []

theorem insertRecSorted {x : Recommendation} {l : List Recommendation}
    (h : List.Pairwise (fun a b => b.score ≤ a.score) l) :
    List.Pairwise (fun a b => b.score ≤ a.score) (insertRec x l) := by
  induction l with
  | nil => simp [insertRec]
  | cons y ys ih =>
    obtain ⟨hy, hys⟩ := List.pairwise_cons.mp h
    unfold insertRec
    split
    · next hlt =>
      rw [List.pairwise_cons]
      refine ⟨?_, List.pairwise_cons.mpr ⟨hy, hys⟩⟩
      intro z hz
      rcases List.mem_cons.mp hz with rfl | hz'
      · omega
      · have := hy z hz'
        omega
    · next hge =>
      rw [List.pairwise_cons]
      refine ⟨?_, ih hys⟩
      intro z hz
      have hz' := (insertRecPerm x ys).mem_iff.mp hz
      rcases List.mem_cons.mp hz' with rfl | hz''
      · omega
      · exact hy z hz''

theorem sortRecsSortedAux (l : List Recommendation) :
    ∀ acc, List.Pairwise (fun a b => b.score ≤ a.score) acc →
      List.Pairwise (fun a b => b.score ≤ a.score)
        (List.foldl (fun acc x => insertRec x acc) acc l) := by
  induction l with
  | nil => intro acc h; simpa using h
  | cons x xs ih => intro acc h; exact ih _ (insertRecSorted h)

theorem sortRecsSorted (l : List Recommendation) :
    List.Pairwise (fun a b => b.score ≤ a.score) (sortRecs l) :=
  sortRecsSortedAux l [] (by simp)

theorem pairwiseHeadBound {y : Recommendation} {ys : List Recommendation}
    (h : List.Pairwise (fun a b => b.score ≤ a.score) (y :: ys)) :
    ∀ z ∈ y :: ys, z.score ≤ y.score := by
  intro z hz
  rcases List.mem_cons.mp hz with rfl | hz'
  · exact le_refl _
  · exact (List.pairwise_cons.mp h).1 z hz'

theorem insertRecFilter (x : Recommendation) (l : List Recommendation) (s : Nat)
    (h : List.Pairwise (fun a b => b.score ≤ a.score) l) :
    (insertRec x l).filter (fun r => r.score == s) =
      l.filter (fun r => r.score == s) ++ (if x.score == s then [x] else []) := by
  induction l with
  | nil =>
    by_cases hxs : x.score == s <;> simp [insertRec, List.filter, hxs]
  | cons y ys ih =>
    unfold insertRec
    split
    · next hlt =>
      by_cases hxs : x.score == s
      · have hxseq : x.score = s := by simpa using hxs
        have hempty : (y :: ys).filter (fun r => r.score == s) = [] := by
          rw [List.filter_eq_nil_iff]
          intro z hz
          have hzb := pairwiseHeadBound h z hz
          have : z.score ≠ s := by omega
          simpa using this
        rw [List.filter_cons, hempty]
        simp [hxs]
      · rw [List.filter_cons]
        simp [hxs]
    · next hge =>
      have hrec := ih (List.pairwise_cons.mp h).2
      rw [List.filter_cons, List.filter_cons, hrec]
      by_cases hys : y.score == s <;> simp [hys]

theorem sortRecsFilterAux (l : List Recommendation) :
    ∀ acc, List.Pairwise (fun a b => b.score ≤ a.score) acc →
      ∀ s, (List.foldl (fun acc x => insertRec x acc) acc l).filter (fun r => r.score == s) =
        acc.filter (fun r => r.score == s) ++ l.filter (fun r => r.score == s) := by
  induction l with
  | nil => intro acc h s; simp
  | cons x xs ih =>
    intro acc h s
    rw [List.foldl_cons, ih _ (insertRecSorted h) s, insertRecFilter x acc s h,
      List.filter_cons]
    by_cases hxs : x.score == s <;> simp [hxs]

theorem sortRecsFilter (l : List Recommendation) (s : Nat) :
    (sortRecs l).filter (fun r => r.score == s) = l.filter (fun r => r.score == s) := by
  simpa using sortRecsFilterAux l [] (by simp) s

/-- Characterization of one scoring step: a kit contributes a result exactly
when it has a matching profile and its raw (pre-rounding) score is strictly
positive; the stored score is the rounded value. -/
theorem scoreRecordIff (matching : List (String × MatchProfile))
    (criteria : RecommendCriteria) (kit : StarterKit) (r : Recommendation) :
    scoreRecord matching criteria kit = some r ↔
      ∃ m, matching.lookup kit.id = some m ∧ rawScorePos (kitScore criteria m) = true ∧
        r = { kit := kit, score := roundedScore (kitScore criteria m)
              reasons := (kitScore criteria m).reasons } := by
  unfold scoreRecord
  cases h : matching.lookup kit.id with
  | none => simp
  | some m =>
    dsimp only
    by_cases hpos : rawScorePos (kitScore criteria m) = true
    · rw [if_pos hpos]
      constructor
      · intro he
        refine ⟨m, rfl, hpos, ?_⟩
        exact ((Option.some.injEq _ _).mp he).symm
      · rintro ⟨m', hm', hpos', hr⟩
        obtain rfl : m = m' := by injection hm'
        rw [hr]
    · rw [if_neg hpos]
      constructor
      · intro he
        cases he
      · rintro ⟨m', hm', hpos', hr⟩
        obtain rfl : m = m' := by injection hm'
        exact absurd hpos' hpos

/-!  Claim C7. -/

/-- Thirty-one requested features of which exactly one (`"f1"`) will match. -/
def manyFeatures : List String :=
  ["f1", "g02", "g03", "g04", "g05", "g06", "g07", "g08", "g09", "g10"
   , "g11", "g12", "g13", "g14", "g15", "g16", "g17", "g18", "g19", "g20"
   , "g21", "g22", "g23", "g24", "g25", "g26", "g27", "g28", "g29", "g30", "g31"]

/-- Criteria supplying only the 31 features. -/
def fractionCriteria : RecommendCriteria := { features := some manyFeatures }

/-- A profile whose feature set matches exactly one of the 31. -/
def fractionProfile : MatchProfile := { features := some ["f1"] }

/-- The one-record data set used by the C7 counterexample. -/
def fractionData : TemplateData :=
  { starterKits := [{ id := "frac" }], matching := [("frac", fractionProfile)] }

/-- Claim C7 counterexample: with one of 31 requested features matching, the
raw score is 15/31 > 0, so the record is included, but its stored
(`Math.round`ed) score is 0 — the result contains a record whose rounded
score is not strictly positive, contradicting the claimed inclusion rule. -/
theorem C7_counterexample :
    (calculateRecommendations fractionData fractionCriteria).map (fun r => r.score) = [0] ∧
    rawScorePos (kitScore fractionCriteria fractionProfile) = true ∧
    roundedScore (kitScore fractionCriteria fractionProfile) = 0 := by
  decide

/-- Claim C7 (amended): the sequence returned by `calculateRecommendations`
contains exactly the records (having a matching profile) whose raw
pre-rounding score is strictly positive, carrying the rounded score; it is
ordered by stored score descending, ties keeping the records' original
input order (elements of equal score appear exactly as in the unsorted
scan); and criteria matching no dimension of any profile yield an empty
sequence. -/
theorem C7_membership_order_stability (data : TemplateData) (criteria : RecommendCriteria) :
    (calculateRecommendations data criteria).Perm
      (data.starterKits.filterMap (scoreRecord data.matching criteria)) ∧
    (∀ (kit : StarterKit) (r : Recommendation),
      scoreRecord data.matching criteria kit = some r ↔
      ∃ m, data.matching.lookup kit.id = some m ∧ rawScorePos (kitScore criteria m) = true ∧
        r = { kit := kit, score := roundedScore (kitScore criteria m)
              reasons := (kitScore criteria m).reasons }) ∧
    List.Pairwise (fun a b => b.score ≤ a.score) (calculateRecommendations data criteria) ∧
    (∀ s, (calculateRecommendations data criteria).filter (fun r => r.score == s) =
      (data.starterKits.filterMap (scoreRecord data.matching criteria)).filter
        (fun r => r.score == s)) ∧
    ((∀ (kit : StarterKit) (m : MatchProfile), data.matching.lookup kit.id = some m →
        rawScorePos (kitScore criteria m) = false) →
      calculateRecommendations data criteria = []) := by
  refine ⟨sortRecsPerm _, fun kit r => scoreRecordIff _ _ kit r, sortRecsSorted _,
    fun s => sortRecsFilter _ s, ?_⟩
  intro hall
  have hnil : data.starterKits.filterMap (scoreRecord data.matching criteria) = [] := by
    rw [List.filterMap_eq_nil_iff]
    intro kit hk
    unfold scoreRecord
    cases h : data.matching.lookup kit.id with
    | none => rfl
    | some m =>
      dsimp only
      rw [if_neg]
      rw [hall kit m h]
      exact Bool.false_ne_true
  unfold calculateRecommendations
  rw [hnil]
  rfl

/-- Claim C7 witness: the amended theorem applied at the counterexample
data set (permutation with the unsorted scan, sortedness, and tie stability
at score 0). -/
theorem C7_witness :
    (calculateRecommendations fractionData fractionCriteria).Perm
      (fractionData.starterKits.filterMap
        (scoreRecord fractionData.matching fractionCriteria)) ∧
    List.Pairwise (fun a b => b.score ≤ a.score)
      (calculateRecommendations fractionData fractionCriteria) ∧
    (calculateRecommendations fractionData fractionCriteria).filter
        (fun r => r.score == 0) =
      (fractionData.starterKits.filterMap
        (scoreRecord fractionData.matching fractionCriteria)).filter
          (fun r => r.score == 0) :=
  ⟨(C7_membership_order_stability fractionData fractionCriteria).1,
   (C7_membership_order_stability fractionData fractionCriteria).2.2.1,
   (C7_membership_order_stability fractionData fractionCriteria).2.2.2.1 0⟩

/-!  Bridges between the integer encoding of the score and the exact
rational arithmetic of the JavaScript source. -/

/-- The feature denominator is always positive (it is 1 outside the feature
branch and the requested-feature count, checked positive, inside it). -/
theorem kitScoreFeatDenPos (criteria : RecommendCriteria) (m : MatchProfile) :
    0 < (kitScore criteria m).featDen := by
  unfold kitScore
  cases dimHit criteria.purpose m.purpose <;>
    cases dimHit criteria.colorPreference m.colorPreference <;>
      cases dimHit criteria.animations m.animations <;>
        cases dimHit criteria.complexity m.complexity <;>
          cases hf : criteria.features <;> cases hm : m.features <;>
            simp [addPoints, addFeatures] <;> split <;> simp [addPoints, addFeatures] <;> omega

/-- Lemma: `roundedScore` computes `Math.round` of the exact rational score. -/
theorem roundedScoreEqFloor (a : ScoreAcc) (hd : 0 < a.featDen) :
    ((roundedScore a : Nat) : ℤ) = ⌊rawScoreQ a + 1/2⌋ := by
  unfold roundedScore rawScoreQ
  have hdq : ((a.featDen : ℚ)) ≠ 0 := by positivity
  have h1 : ((a.base : ℚ) + 15 * (a.featNum : ℚ) / (a.featDen : ℚ)) + 1/2 =
      ((2 * a.featDen * a.base + 30 * a.featNum + a.featDen : ℤ) : ℚ) /
        ((2 * a.featDen : ℕ) : ℚ) := by
    push_cast
    field_simp
    ring
  rw [h1, Rat.floor_intCast_div_natCast]
  push_cast [Int.ofNat_div]
  rw [show (2 * (a.featDen : ℤ) * a.base + 30 * a.featNum + a.featDen) =
      (30 * (a.featNum : ℤ) + a.featDen) + a.base * (2 * a.featDen) by ring]
  rw [Int.add_mul_ediv_right _ _ (by positivity : (2 * (a.featDen : ℤ)) ≠ 0)]
  ring

/-- Lemma: `rawScorePos` decides `score > 0` on the exact rational score. -/
theorem rawScorePosIffQ (a : ScoreAcc) (hd : 0 < a.featDen) :
    rawScorePos a = true ↔ 0 < rawScoreQ a := by
  unfold rawScorePos rawScoreQ
  have hdq : (0:ℚ) < (a.featDen : ℚ) := by exact_mod_cast hd
  constructor
  · intro h
    rcases Bool.or_eq_true _ _ |>.mp h with hb | hn
    · have hb' : 0 < a.base := by simpa using hb
      have hbq : (0:ℚ) < (a.base : ℚ) := by exact_mod_cast hb'
      have h2 : (0:ℚ) ≤ 15 * (a.featNum : ℚ) / (a.featDen : ℚ) := by positivity
      linarith
    · have hn' : 0 < a.featNum := by simpa using hn
      have hnq : (0:ℚ) < (a.featNum : ℚ) := by exact_mod_cast hn'
      have h2 : (0:ℚ) < 15 * (a.featNum : ℚ) / (a.featDen : ℚ) := by positivity
      have hb : (0:ℚ) ≤ (a.base : ℚ) := by positivity
      linarith
  · intro h
    by_contra hq
    rw [Bool.or_eq_true] at hq
    push_neg at hq
    simp at hq
    obtain ⟨hb, hn⟩ := hq
    rw [hb, hn] at h
    norm_num at h

/-!  Loop lemmas for Claim C8. -/

/-- Number of lines of `content` containing `query` case-insensitively. -/
def countMatchingLines (content query : String) : Nat :=
  ((contentLines content).filter (lineMatches (query.data.map Char.toLower))).length

theorem filterDropSuccLe (lines : List String) (p : String → Bool) (j : Nat) :
    ((lines.drop (j + 1)).filter p).length ≤ ((lines.drop j).filter p).length := by
  by_cases h : j < lines.length
  · rw [List.drop_eq_getElem_cons h, List.filter_cons]
    split <;> simp
  · have h1 : lines.drop j = [] := List.drop_eq_nil_of_le (by omega)
    have h2 : lines.drop (j + 1) = [] := List.drop_eq_nil_of_le (by omega)
    rw [h1, h2]

theorem searchLoopLenLe (lines : List String) (ql : List Char) (limit : Nat) :
    ∀ fuel i acc, acc.length ≤ limit →
      (searchLoop lines ql limit fuel i acc).length ≤ limit := by
  intro fuel
  induction fuel with
  | zero => intro i acc h; simpa [searchLoop] using h
  | succ fuel ih =>
    intro i acc h
    unfold searchLoop
    split
    · next hcond =>
      split
      · apply ih
        rw [List.length_append]
        have := hcond.2
        simp
        omega
      · exact ih _ _ h
    · exact h

theorem searchLoopLenLeMatches (lines : List String) (ql : List Char) (limit : Nat) :
    ∀ fuel i acc,
      (searchLoop lines ql limit fuel i acc).length ≤
        acc.length + ((lines.drop i).filter (lineMatches ql)).length := by
  intro fuel
  induction fuel with
  | zero => intro i acc; simp [searchLoop]
  | succ fuel ih =>
    intro i acc
    unfold searchLoop
    split
    · next hcond =>
      split
      · next hmatch =>
        refine le_trans (ih (i + 3 + 1) (acc ++ [excerptBlock lines i])) ?_
        rw [List.length_append]
        have hmatch' := hmatch
        rw [List.get_eq_getElem] at hmatch'
        have hcnt : ((lines.drop i).filter (lineMatches ql)).length =
            1 + ((lines.drop (i + 1)).filter (lineMatches ql)).length := by
          rw [List.drop_eq_getElem_cons hcond.1, List.filter_cons, hmatch']
          simp
          omega
        have h4 : ((lines.drop (i + 3 + 1)).filter (lineMatches ql)).length ≤
            ((lines.drop (i + 1)).filter (lineMatches ql)).length :=
          le_trans (filterDropSuccLe lines (lineMatches ql) (i + 3))
            (le_trans (filterDropSuccLe lines (lineMatches ql) (i + 2))
              (filterDropSuccLe lines (lineMatches ql) (i + 1)))
        simp at h4 hcnt ⊢
        omega
      · next hmatch =>
        refine le_trans (ih (i + 1) acc) ?_
        have := filterDropSuccLe lines (lineMatches ql) i
        omega
    · simp

theorem searchLoopNoMatch (lines : List String) (ql : List Char) (limit : Nat)
    (hno : ∀ line ∈ lines, lineMatches ql line = false) :
    ∀ fuel i acc, searchLoop lines ql limit fuel i acc = acc := by
  intro fuel
  induction fuel with
  | zero => intro i acc; rfl
  | succ fuel ih =>
    intro i acc
    unfold searchLoop
    split
    · next hcond =>
      have hm := hno (lines.get ⟨i, hcond.1⟩) (lines.get_mem _ _)
      rw [hm]
      simp only [Bool.false_eq_true, if_false]
      exact ih _ _
    · rfl

/-!  Claim C8. -/

/-- Claim C8 counterexample: in the content `"a\na"` the query `"a"` occurs
in two lines and 2 < 5 = limit, but the scan emits one excerpt (the second
matching line sits inside the first excerpt's context window, and the loop
jumps past it), so "exactly k excerpts" fails. -/
theorem C8_counterexample :
    countMatchingLines "a\na" "a" = 2 ∧ (2 : Nat) < 5 ∧
    (searchInContent "a\na" "a" 5).length = 1 ∧ (1 : Nat) ≠ 2 := by
  decide

/-- Claim C8 (amended): for any content and limit, `searchInContent` returns
at most as many excerpts as there are matching lines (never padded — at most
one excerpt per matching line, and lines inside an already-emitted context
window are skipped), at most `limit` excerpts, and an empty sequence — not
an error — when the query occurs in no line. -/
theorem C8_search_never_pads (content query : String) (limit : Nat) :
    (searchInContent content query limit).length ≤ countMatchingLines content query ∧
    (searchInContent content query limit).length ≤ limit ∧
    (countMatchingLines content query = 0 → searchInContent content query limit = []) := by
  refine ⟨?_, ?_, ?_⟩
  · have h := searchLoopLenLeMatches (contentLines content) (query.data.map Char.toLower)
      limit (contentLines content).length 0 []
    simpa [searchInContent, countMatchingLines] using h
  · exact searchLoopLenLe (contentLines content) (query.data.map Char.toLower) limit
      (contentLines content).length 0 [] (by simp)
  · intro h
    have hno : ∀ line ∈ contentLines content,
        lineMatches (query.data.map Char.toLower) line = false := by
      intro line hl
      have hnil := List.length_eq_zero.mp h
      have := List.filter_eq_nil_iff.mp hnil line hl
      simpa using this
    exact searchLoopNoMatch (contentLines content) (query.data.map Char.toLower) limit hno
      (contentLines content).length 0 []

/-- Claim C8 witness: the amended theorem applied at concrete content with
two matching lines and limit 5. -/
theorem C8_witness :
    (searchInContent "a\na" "a" 5).length ≤ countMatchingLines "a\na" "a" ∧
    (searchInContent "a\na" "a" 5).length ≤ 5 :=
  ⟨(C8_search_never_pads "a\na" "a" 5).1, (C8_search_never_pads "a\na" "a" 5).2.1⟩

/-!  Path lemmas for Claim C5. -/

theorem joinSegsCons (s : List Char) (t : List (List Char)) (h : t ≠ []) :
    joinSegs (s :: t) = s ++ '/' :: joinSegs t := by
  cases t with
  | nil => contradiction
  | cons a b => rfl

theorem joinSegsAppendSingle (l : List (List Char)) (s : List Char) (h : l ≠ []) :
    joinSegs (l ++ [s]) = joinSegs l ++ '/' :: s := by
  induction l with
  | nil => contradiction
  | cons x xs ih =>
    cases xs with
    | nil => rfl
    | cons y ys =>
      rw [List.cons_append, joinSegsCons x ((y :: ys) ++ [s]) (by simp),
        joinSegsCons x (y :: ys) (by simp), ih (by simp)]
      simp

theorem joinSegsExtendLast (l : List (List Char)) (s t : List Char) :
    joinSegs (l ++ [s ++ t]) = joinSegs (l ++ [s]) ++ t := by
  induction l with
  | nil => rfl
  | cons x xs ih =>
    rw [List.cons_append, List.cons_append, joinSegsCons _ _ (by simp),
      joinSegsCons _ _ (by simp), ih]
    simp

theorem splitOnCharNeNil (c : Char) (cs : List Char) : splitOnChar c cs ≠ [] := by
  induction cs with
  | nil => simp [splitOnChar]
  | cons x xs ih =>
    simp only [splitOnChar]
    cases h : splitOnChar c xs with
    | nil => simp
    | cons s ss => by_cases hx : x = c <;> simp [hx]

theorem splitOnCharSep (c : Char) (cs : List Char) :
    splitOnChar c (c :: cs) = [] :: splitOnChar c cs := by
  cases h : splitOnChar c cs with
  | nil => exact absurd h (splitOnCharNeNil c cs)
  | cons s ss => simp [splitOnChar, h]

theorem splitOnCharAppendNoSep (c : Char) :
    ∀ s : List Char, c ∉ s → ∀ cs r rs, splitOnChar c cs = r :: rs →
      splitOnChar c (s ++ cs) = (s ++ r) :: rs := by
  intro s
  induction s with
  | nil =>
    intro _ cs r rs h
    simpa using h
  | cons x xs ih =>
    intro hs cs r rs h
    have hx : x ≠ c := fun he => hs (he ▸ List.mem_cons_self _ _)
    have hxs : c ∉ xs := fun hm => hs (List.mem_cons_of_mem _ hm)
    have hrec := ih hxs cs r rs h
    rw [List.cons_append]
    unfold splitOnChar
    rw [hrec]
    simp [hx]

theorem splitOnCharJoin (segs : List (List Char)) (hne : segs ≠ [])
    (hgood : ∀ s ∈ segs, '/' ∉ s) :
    splitOnChar '/' (joinSegs segs) = segs := by
  induction segs with
  | nil => contradiction
  | cons s rest ih =>
    cases rest with
    | nil => simpa using splitOnCharNoSep (hgood s (by simp))
    | cons t ts =>
      rw [joinSegsCons s (t :: ts) (by simp)]
      have hrest := ih (by simp) (fun z hz => hgood z (List.mem_cons_of_mem _ hz))
      have hsep : splitOnChar '/' ('/' :: joinSegs (t :: ts)) = [] :: (t :: ts) := by
        rw [splitOnCharSep, hrest]
      have := splitOnCharAppendNoSep '/' s (hgood s (by simp))
        ('/' :: joinSegs (t :: ts)) [] (t :: ts) hsep
      simpa using this

theorem collapseAbsGood (segs : List (List Char))
    (hgood : ∀ s ∈ segs, s ≠ ['.'] ∧ s ≠ ['.', '.']) :
    ∀ st, collapseAbs st segs = st ++ segs := by
  induction segs with
  | nil => intro st; simp [collapseAbs]
  | cons s rest ih =>
    intro st
    have hs := hgood s (by simp)
    unfold collapseAbs
    rw [if_neg hs.1, if_neg hs.2,
      ih (fun z hz => hgood z (List.mem_cons_of_mem _ hz)) (st ++ [s])]
    simp

/-- Resolving a canonical absolute path (non-empty good segments) is the
identity. -/
theorem pathResolveCanonical (cwd : String) (segs : List (List Char)) (hne : segs ≠ [])
    (hgood : ∀ s ∈ segs, s ≠ [] ∧ '/' ∉ s ∧ s ≠ ['.'] ∧ s ≠ ['.', '.']) :
    pathResolve cwd (String.mk ('/' :: joinSegs segs)) = String.mk ('/' :: joinSegs segs) := by
  unfold pathResolve
  have hfil : (([] : List Char) :: segs).filter (· ≠ []) = segs := by
    simp
    intro s hs
    exact (hgood s hs).1
  have hhd : headIsSlash ('/' :: joinSegs segs) = true := rfl
  simp only [show (String.mk ('/' :: joinSegs segs)).data = '/' :: joinSegs segs from rfl,
    hhd, if_true]
  rw [splitOnCharSep, splitOnCharJoin segs hne (fun s hs => (hgood s hs).2.1), hfil,
    collapseAbsGood segs (fun s hs => ⟨(hgood s hs).2.2.1, (hgood s hs).2.2.2⟩) []]
  simp

theorem leadsWithAppendCancel (p q r : List Char) :
    leadsWith (p ++ q) (p ++ r) = leadsWith q r := by
  induction p with
  | nil => rfl
  | cons x xs ih => simp [leadsWith, ih]

theorem leadsWithIffExists (p : List Char) :
    ∀ s, leadsWith p s = true ↔ ∃ t, s = p ++ t := by
  induction p with
  | nil =>
    intro s
    simp [leadsWith]
  | cons x xs ih =>
    intro s
    cases s with
    | nil =>
      simp [leadsWith]
    | cons y ys =>
      rw [show leadsWith (x :: xs) (y :: ys) = (x == y && leadsWith xs ys) from rfl,
        Bool.and_eq_true, beq_iff_eq, ih ys]
      constructor
      · rintro ⟨rfl, t, rfl⟩
        exact ⟨t, rfl⟩
      · rintro ⟨t, he⟩
        injection he with h1 h2
        exact ⟨h1.symm, t, h2⟩

/-!  Claim C5. -/

/-- Claim C5 counterexample: for the base directory `"/"`, the path
`base + sep + "x"` is `"//x"`, which Node resolves to `"/x"`; that neither
equals `"/"` nor starts with `"/" + "/"`, so `isPathWithinBase` returns
false where the claim's "in particular" clause asserts true. -/
theorem C5_counterexample :
    ("/" ++ "/" ++ "x" : String) = "//x" ∧
    isPathWithinBase "//x" "/" "/srv" = false := by
  decide

/-- Claim C5 (amended): `isPathWithinBase(candidate, base)` returns true if
and only if the resolved candidate equals the resolved base or starts with
the resolved base followed by the path separator; and for every base that
is a canonical non-root absolute directory path (non-empty `/`-joined
segments, none empty, none `"."` or `".."`),
`isPathWithinBase(base + "/" + "x", base)` is true and
`isPathWithinBase(base + "-sibling/x", base)` is false. -/
theorem C5_boundary_check (cwd base : String) (segs : List (List Char))
    (hbase : base.data = '/' :: joinSegs segs)
    (hne : segs ≠ [])
    (hgood : ∀ s ∈ segs, s ≠ [] ∧ '/' ∉ s ∧ s ≠ ['.'] ∧ s ≠ ['.', '.']) :
    (∀ requested b : String,
      isPathWithinBase requested b cwd = true ↔
        (pathResolve cwd requested = pathResolve cwd b ∨
          ∃ rest, (pathResolve cwd requested).data =
            (pathResolve cwd b).data ++ '/' :: rest)) ∧
    isPathWithinBase (base ++ "/x") base cwd = true ∧
    isPathWithinBase (base ++ "-sibling/x") base cwd = false := by
  have hbase' : base = String.mk ('/' :: joinSegs segs) := by
    rw [← stringMkData base, hbase]
  have hres : pathResolve cwd base = base := by
    rw [hbase']
    exact pathResolveCanonical cwd segs hne hgood
  refine ⟨?_, ?_, ?_⟩
  · intro requested b
    simp only [isPathWithinBase]
    rw [Bool.or_eq_true, beq_iff_eq, leadsWithIffExists]
    constructor
    · rintro (⟨t, ht⟩ | heq)
      · exact Or.inr ⟨t, by simpa using ht⟩
      · exact Or.inl heq
    · rintro (heq | ⟨t, ht⟩)
      · exact Or.inr heq
      · exact Or.inl ⟨t, by simpa using ht⟩
  · have hdata : (base ++ "/x").data = '/' :: joinSegs (segs ++ [['x']]) := by
      rw [String.data_append, hbase, joinSegsAppendSingle segs ['x'] hne]
      simp
    have hgood2 : ∀ s ∈ segs ++ [['x']],
        s ≠ [] ∧ '/' ∉ s ∧ s ≠ ['.'] ∧ s ≠ ['.', '.'] := by
      intro s hs
      rcases List.mem_append.mp hs with h | h
      · exact hgood s h
      · simp at h
        subst h
        refine ⟨by simp, by decide, by decide, by decide⟩
    have hres2 : pathResolve cwd (base ++ "/x") = base ++ "/x" := by
      rw [show base ++ "/x" = String.mk ('/' :: joinSegs (segs ++ [['x']])) from by
        rw [← stringMkData (base ++ "/x"), hdata]]
      exact pathResolveCanonical cwd (segs ++ [['x']]) (by simp) hgood2
    simp only [isPathWithinBase, hres, hres2]
    have hlead : leadsWith (base.data ++ ['/']) (base ++ "/x").data = true := by
      rw [hdata, hbase, joinSegsAppendSingle segs ['x'] hne,
        show ('/' :: (joinSegs segs ++ '/' :: ['x'])) =
          (('/' :: joinSegs segs) ++ ['/']) ++ ['x'] from by simp]
      exact leadsWithSelfAppend _ _
    rw [hlead]
    rfl
  · obtain ⟨init, last, hsegs⟩ : ∃ init last, segs = init ++ [last] :=
      ⟨segs.dropLast, segs.getLast hne, (List.dropLast_append_getLast hne).symm⟩
    have hlast_mem : last ∈ segs := by
      rw [hsegs]
      simp
    have hlast_good := hgood last hlast_mem
    have hlast_len : 0 < last.length := List.length_pos.mpr hlast_good.1
    have hjoin2 : joinSegs ((init ++ [last ++ ("-sibling").data]) ++ [['x']]) =
        (joinSegs segs ++ ("-sibling").data) ++ '/' :: ['x'] := by
      rw [joinSegsAppendSingle (init ++ [last ++ ("-sibling").data]) ['x'] (by simp),
        joinSegsExtendLast init last ("-sibling").data, ← hsegs]
    have hdata : (base ++ "-sibling/x").data =
        '/' :: joinSegs ((init ++ [last ++ ("-sibling").data]) ++ [['x']]) := by
      rw [String.data_append, hbase, hjoin2,
        show ("-sibling/x").data = ("-sibling").data ++ '/' :: ['x'] from rfl]
      simp
    have hgood2 : ∀ s ∈ (init ++ [last ++ ("-sibling").data]) ++ [['x']],
        s ≠ [] ∧ '/' ∉ s ∧ s ≠ ['.'] ∧ s ≠ ['.', '.'] := by
      intro s hs
      rcases List.mem_append.mp hs with h | h
      · rcases List.mem_append.mp h with h1 | h1
        · exact hgood s (by rw [hsegs]; exact List.mem_append.mpr (Or.inl h1))
        · simp at h1
          subst h1
          refine ⟨?_, ?_, ?_, ?_⟩
          · intro he
            rcases List.append_eq_nil.mp he with ⟨_, hsib⟩
            simp at hsib
          · intro hm
            rcases List.mem_append.mp hm with hm1 | hm1
            · exact hlast_good.2.1 hm1
            · revert hm1
              decide
          · intro he
            have := congrArg List.length he
            simp at this
          · intro he
            have := congrArg List.length he
            simp at this
      · simp at h
        subst h
        refine ⟨by simp, by decide, by decide, by decide⟩
    have hres2 : pathResolve cwd (base ++ "-sibling/x") = base ++ "-sibling/x" := by
      rw [show base ++ "-sibling/x" =
          String.mk ('/' :: joinSegs ((init ++ [last ++ ("-sibling").data]) ++ [['x']])) from by
        rw [← stringMkData (base ++ "-sibling/x"), hdata]]
      exact pathResolveCanonical cwd _ (by simp) hgood2
    simp only [isPathWithinBase, hres, hres2]
    have hshape : (base ++ "-sibling/x").data =
        ('/' :: joinSegs segs) ++ ('-' :: ("sibling/x").data) := by
      rw [String.data_append, hbase]
    have hlead : leadsWith (base.data ++ ['/']) (base ++ "-sibling/x").data = false := by
      rw [hshape, hbase, leadsWithAppendCancel ('/' :: joinSegs segs) ['/']
        ('-' :: ("sibling/x").data)]
      decide
    have hbeq : ((base ++ "-sibling/x") == base) = false := by
      rw [beq_eq_false_iff_ne]
      intro he
      have hd := congrArg String.data he
      rw [String.data_append] at hd
      simp at hd
    rw [hlead, hbeq]
    rfl

/-- Claim C5 witness: the amended theorem applied at the canonical base
`"/app"` (segments `[['a','p','p']]`) with working directory `"/srv"`. -/
theorem C5_witness :
    isPathWithinBase ("/app" ++ "/x") "/app" "/srv" = true ∧
    isPathWithinBase ("/app" ++ "-sibling/x") "/app" "/srv" = false :=
  ⟨(C5_boundary_check "/srv" "/app" [['a', 'p', 'p']] rfl (by decide) (by decide)).2.1,
   (C5_boundary_check "/srv" "/app" [['a', 'p', 'p']] rfl (by decide) (by decide)).2.2⟩
